import Mathlib

/-!
Verification of the hierarchical parameter store implemented in
`stretch/core/parameters.py` (class `Parameters`).

The Python values that can live in the store are modelled by the inductive
type `Value` (None, booleans, integers, strings, lists, and insertion-ordered
dictionaries, the latter represented as association lists).  The methods
`get`, `set`, `__getitem__`, `__setitem__`, `__str__`, `get_task_goals` and
the property `guarantee_instance_is_reachable` are translated one by one.
Raised exceptions (`KeyError`, `TypeError`) are modelled with `Except`, and
the single `logger.warning(...)` call in `get` is modelled as an emitted
event, so that theorems can count warnings.  Since Python methods mutate
`self` in place, `get` also returns the store it leaves behind, which lets
us state frame properties.
-/

namespace Stretch

/-- Python values stored in a `Parameters` object: `None`, booleans,
integers, strings, lists, and dictionaries.  Dictionaries keep insertion
order, so they are modelled as association lists over string keys (the
store only ever uses string keys). -/
inductive Value where
  | none : Value
  | bool : Bool → Value
  | int : Int → Value
  | str : String → Value
  | list : List Value → Value
  | dict : List (String × Value) → Value
deriving Repr

/-- Exceptions the translated code can raise: `KeyError(key)` and
`TypeError`. -/
inductive PErr where
  | keyError : String → PErr
  | typeError : PErr
deriving Repr, DecidableEq

/-- Lookup in an insertion-ordered dictionary: value of the first (unique)
binding of `k`. -/
def dictLookup : List (String × Value) → String → Option Value
  | [], _ => Option.none
  | (k2, v) :: rest, k => if k2 = k then some v else dictLookup rest k

/-- Python `k in d` for a dictionary. -/
def dictContains (kvs : List (String × Value)) (k : String) : Bool :=
  (dictLookup kvs k).isSome

/-- Python `d[k] = v` for a dictionary: overwrite in place (keeping the
key position) when `k` is bound, append a fresh binding otherwise. -/
def dictSet : List (String × Value) → String → Value → List (String × Value)
  | [], k, v => [(k, v)]
  | (k2, v2) :: rest, k, v =>
    if k2 = k then (k, v) :: rest else (k2, v2) :: dictSet rest k v

/-- Python `x is None`. -/
def Value.isNone : Value → Bool
  | .none => true
  | _ => false

/-- Python `key in data` for a string key `k`, on each kind of value:
key membership for dictionaries, element membership for lists (a string
equals only an equal string), substring test for strings, `TypeError`
otherwise. -/
def pyContains : Value → String → Except PErr Bool
  | .dict kvs, k => .ok (dictContains kvs k)
  | .list vs, k => .ok (vs.any (fun v => match v with
      | .str s => s = k
      | _ => false))
  | .str s, k => .ok (decide (List.IsInfix k.data s.data))
  | _, _ => .error PErr.typeError

/-- Python `data[key]` for a string key: dictionary lookup raising
`KeyError` when the key is absent; every other value raises `TypeError`
when indexed with a string. -/
def pyGetItem : Value → String → Except PErr Value
  | .dict kvs, k =>
    match dictLookup kvs k with
    | some v => .ok v
    | Option.none => .error (PErr.keyError k)
  | _, _ => .error PErr.typeError

/-- Python `data[key] = value` for a string key: dictionary update
(returning the updated association list); every other value raises
`TypeError` when assigned through a string index. -/
def pySetItem : Value → String → Value → Except PErr (List (String × Value))
  | .dict kvs, k, v => .ok (dictSet kvs k v)
  | _, _, _ => .error PErr.typeError

/-- Python `len(x)`: defined for strings, lists and dictionaries,
`TypeError` otherwise. -/
def pyLen : Value → Except PErr Nat
  | .str s => .ok s.length
  | .list vs => .ok vs.length
  | .dict kvs => .ok kvs.length
  | _ => .error PErr.typeError

/-- Escape one character of a Python string literal rendered with quote
character `q` (the common cases: backslash, the quote itself, newline,
carriage return, tab; other characters are kept as they are). -/
def reprEscChar (q : Char) (c : Char) : List Char :=
  if c = Char.ofNat 92 then [Char.ofNat 92, Char.ofNat 92]
  else if c = q then [Char.ofNat 92, q]
  else if c = Char.ofNat 10 then [Char.ofNat 92, Char.ofNat 110]
  else if c = Char.ofNat 13 then [Char.ofNat 92, Char.ofNat 114]
  else if c = Char.ofNat 9 then [Char.ofNat 92, Char.ofNat 116]
  else [c]

/-- Python `repr` of a string: single-quoted, unless the string contains a
single quote and no double quote, in which case it is double-quoted. -/
def pyReprString (s : String) : String :=
  let q : Char :=
    if s.data.contains (Char.ofNat 39) && !(s.data.contains (Char.ofNat 34))
    then Char.ofNat 34 else Char.ofNat 39
  String.mk (q :: s.data.foldr (fun c acc => reprEscChar q c ++ acc) [q])

mutual

/-- Python `str(v)` as used by the f-string in `__str__`: scalars render
directly, containers render like their `repr`. -/
def pyStr : Value → String
  | .none => "None"
  | .bool b => if b then "True" else "False"
  | .int n => toString n
  | .str s => s
  | .list vs => "[" ++ pyStrCommaList vs ++ "]"
  | .dict kvs => "\x7b" ++ pyStrCommaDict kvs ++ "\x7d"

/-- Python `repr(v)`: as `str(v)` except that strings are quoted. -/
def pyRepr : Value → String
  | .none => "None"
  | .bool b => if b then "True" else "False"
  | .int n => toString n
  | .str s => pyReprString s
  | .list vs => "[" ++ pyStrCommaList vs ++ "]"
  | .dict kvs => "\x7b" ++ pyStrCommaDict kvs ++ "\x7d"

/-- Comma-separated `repr`s of the elements of a list. -/
def pyStrCommaList : List Value → String
  | [] => ""
  | [v] => pyRepr v
  | v :: v2 :: rest => pyRepr v ++ ", " ++ pyStrCommaList (v2 :: rest)

/-- Comma-separated `repr(k): repr(v)` entries of a dictionary. -/
def pyStrCommaDict : List (String × Value) → String
  | [] => ""
  | [(k, v)] => pyReprString k ++ ": " ++ pyRepr v
  | (k, v) :: e :: rest =>
    pyReprString k ++ ": " ++ pyRepr v ++ ", " ++ pyStrCommaDict (e :: rest)

end

/-- Split a character list on the character `c`, Python-style: adjacent
separators and separators at the ends produce empty segments, and the
result is never empty. -/
def splitCharAux (c : Char) : List Char → List Char → List String
  | cur, [] => [String.mk cur.reverse]
  | cur, ch :: rest =>
    if ch = c then String.mk cur.reverse :: splitCharAux c [] rest
    else splitCharAux c (ch :: cur) rest

/-- Python `s.split(sep)` for the one-character separator the source uses
(`key.split("/")`). -/
def pySplit (s : String) (c : Char) : List String :=
  splitCharAux c [] s.data

/-- Python `c in s` for a one-character needle (the source only tests
`"/" in key`). -/
def hasChar (s : String) (c : Char) : Bool :=
  s.data.contains c

/-- The slash character used as the path separator. -/
def slash : Char := Char.ofNat 47

/-- The `Parameters` wrapper object: its single attribute `data`, a mapping
from string keys to values (`self.data = kwargs`). -/
structure Parameters where
  data : List (String × Value)
deriving Repr

/-- The event emitted by `logger.warning("[Parameters] Key not found: " +
str(original_key) + "; using default:", default)`: the message string
together with the extra `default` argument. -/
def warnEvent (originalKey : String) (default : Value) : String × Value :=
  ("[Parameters] Key not found: " ++ originalKey ++ "; using default:", default)

/-- Tail of `Parameters.get` shared by both addressing modes:
`if default is not None and key not in data: return default` followed by
`return data[key]`.  The conjunction short-circuits exactly as in Python:
when `default is None`, the `in` test is never evaluated. -/
def finalAccess (default : Value) (data : Value) (key : String) : Except PErr Value :=
  if default.isNone then pyGetItem data key
  else
    match pyContains data key with
    | .error e => .error e
    | .ok true => pyGetItem data key
    | .ok false => .ok default

/-- Loop of `Parameters.get` over the split key `k :: ks`: iterate
`for key in keys[:-1]`, checking membership and descending one level per
intermediate segment (warning and returning `default` on an absent
intermediate segment), then run `finalAccess` on `keys[-1]`.  The store
`p` is threaded through unchanged, since the loop only rebinds the local
`data`. -/
def getLoop (p : Parameters) (originalKey : String) (default : Value) :
    Value → String → List String → Parameters × Except PErr Value × List (String × Value)
  | data, k, [] => (p, finalAccess default data k, [])
  | data, k, k2 :: ks =>
    match pyContains data k with
    | .error e => (p, .error e, [])
    | .ok false => (p, .ok default, [warnEvent originalKey default])
    | .ok true =>
      match pyGetItem data k with
      | .error e => (p, .error e, [])
      | .ok d => getLoop p originalKey default d k2 ks

/-- Translation of `Parameters.get(key, default=None)`.  It returns the
store after the call (the method never mutates it), the value returned or
the exception raised, and the list of warning events emitted.  When the
key contains a slash it is split and traversed by `getLoop`; otherwise the
shared final access runs directly on `self.data`. -/
def Parameters.get (p : Parameters) (key : String) (default : Value) :
    Parameters × Except PErr Value × List (String × Value) :=
  let data := Value.dict p.data
  if hasChar key slash then
    match pySplit key slash with
    | [] => (p, finalAccess default data key, [])
    | k :: ks => getLoop p key default data k ks
  else
    (p, finalAccess default data key, [])

/-- Loop of `Parameters.set` over the split key `k :: ks`: descend through
`keys[:-1]` with unguarded indexing (`data = data[key]`), then assign at
`keys[-1]`.  The in-place mutation of the nested dictionary is rendered
functionally by writing the updated child back into its parent. -/
def setLoop : Value → String → List String → Value → Except PErr (List (String × Value))
  | data, k, [], v => pySetItem data k v
  | data, k, k2 :: ks, v =>
    match pyGetItem data k with
    | .error e => .error e
    | .ok d =>
      match setLoop d k2 ks v with
      | .error e => .error e
      | .ok kvs2 => pySetItem data k (Value.dict kvs2)

/-- Translation of `Parameters.set(key, value)`: split hierarchical keys
and run `setLoop`, assign directly for flat keys.  The result is the store
after the call; a raised exception leaves the store unchanged, which
`Except.error` models by carrying no store. -/
def Parameters.set (p : Parameters) (key : String) (value : Value) :
    Except PErr Parameters :=
  let data := Value.dict p.data
  let res :=
    if hasChar key slash then
      match pySplit key slash with
      | [] => pySetItem data key value
      | k :: ks => setLoop data k ks value
    else pySetItem data key value
  match res with
  | .error e => .error e
  | .ok kvs => .ok ⟨kvs⟩

/-- Translation of `Parameters.__getitem__`: `return self.data[key]`. -/
def Parameters.getItem (p : Parameters) (key : String) : Except PErr Value :=
  pyGetItem (Value.dict p.data) key

/-- Translation of `Parameters.__setitem__`: `self.data[key] = value`
(never raises, since `self.data` is a dictionary). -/
def Parameters.setItem (p : Parameters) (key : String) (value : Value) : Parameters :=
  ⟨dictSet p.data key value⟩

/-- Loop of `Parameters.__str__`: `result = ""`, then for each entry at
position `i`, append a newline first when `i > 0`, then `f"{key}: {value}"`. -/
def strLoop : String → Nat → List (String × Value) → String
  | result, _, [] => result
  | result, i, (k, v) :: rest =>
    strLoop ((if 0 < i then result ++ "\n" else result) ++ k ++ ": " ++ pyStr v)
      (i + 1) rest

/-- Translation of `Parameters.__str__`. -/
def Parameters.toStr (p : Parameters) : String :=
  strLoop "" 0 p.data

/-- One slot of `Parameters.get_task_goals`: the body duplicated for
`object_to_find` and for `location_to_place` — if the key is in
`parameters.data`, read it through `__getitem__` and normalise it to
`None` when `len(...) == 0`; otherwise the slot is `None`. -/
def taskGoalRead (p : Parameters) (k : String) : Except PErr Value :=
  if dictContains p.data k then
    match p.getItem k with
    | .error e => .error e
    | .ok v =>
      match pyLen v with
      | .error e => .error e
      | .ok n => if n = 0 then .ok Value.none else .ok v
  else .ok Value.none

/-- Translation of `Parameters.get_task_goals`: compute the
`object_to_find` slot first (its `len` call can raise), then the
`location_to_place` slot, and return the pair in that order. -/
def Parameters.get_task_goals (p : Parameters) : Except PErr (Value × Value) :=
  match taskGoalRead p "object_to_find" with
  | .error e => .error e
  | .ok object_to_find =>
    match taskGoalRead p "location_to_place" with
    | .error e => .error e
    | .ok location_to_place => .ok (object_to_find, location_to_place)

/-- Translation of the property `Parameters.guarantee_instance_is_reachable`:
`if key in self.data: return self.data[key] else: return False`, where the
guarded contains-then-index on the dictionary is rendered as one lookup. -/
def Parameters.guarantee_instance_is_reachable (p : Parameters) : Value :=
  match dictLookup p.data "guarantee_instance_is_reachable" with
  | some v => v
  | Option.none => Value.bool false

/-- Descent used to state hypotheses about hierarchical keys: follow the
given segments from a value, requiring every level entered to be a
dictionary that binds the segment; `some` of the reached value on success. -/
def walk : Value → List String → Option Value
  | v, [] => some v
  | .dict kvs, k :: ks =>
    match dictLookup kvs k with
    | some v => walk v ks
    | Option.none => Option.none
  | _, _ => Option.none

/-- Decidable hypothesis for `get_task_goals`: the named key, when bound,
is bound to a value on which `len` is defined (a sequence). -/
def slotLenDefined (kvs : List (String × Value)) (k : String) : Bool :=
  match dictLookup kvs k with
  | Option.none => true
  | some w =>
    match pyLen w with
    | .ok _ => true
    | .error _ => false

/-- Modelled from the spec (refinement side of C7): the value
`get_task_goals` is specified to put in the slot for key `k` — the stored
value when present with non-empty length, the absent signal `None` when
the key is absent or its value is an empty sequence. -/
def taskGoalSlotSpec (kvs : List (String × Value)) (k : String) : Value :=
  match dictLookup kvs k with
  | Option.none => Value.none
  | some w =>
    match pyLen w with
    | .ok 0 => Value.none
    | _ => w

example : pySplit "a/b/c" slash = ["a", "b", "c"] := rfl

example :
    Parameters.get ⟨[("a", Value.dict [("b", Value.int 3)])]⟩ "a/b" Value.none
      = (⟨[("a", Value.dict [("b", Value.int 3)])]⟩, .ok (Value.int 3), []) := rfl

example :
    Parameters.get ⟨[("a", Value.dict [])]⟩ "a/x/c" (Value.int 9)
      = (⟨[("a", Value.dict [])]⟩, .ok (Value.int 9),
         [warnEvent "a/x/c" (Value.int 9)]) := rfl

example :
    Parameters.set ⟨[("a", Value.dict [])]⟩ "a/b" (Value.int 7)
      = .ok ⟨[("a", Value.dict [("b", Value.int 7)])]⟩ := rfl

example :
    Parameters.toStr ⟨[("x", Value.int 1), ("y", Value.int 2)]⟩
      = "x: 1" ++ "\n" ++ "y: 2" := rfl

example :
    Parameters.get_task_goals ⟨[("object_to_find", Value.str "")]⟩
      = .ok (Value.none, Value.none) := rfl

theorem dictLookup_dictSet_self (kvs : List (String × Value)) (k : String) (v : Value) :
    dictLookup (dictSet kvs k v) k = some v := by
  induction kvs with
  | nil => simp [dictSet, dictLookup]
  | cons e rest ih =>
    obtain ⟨k2, v2⟩ := e
    by_cases h : k2 = k
    · subst h; simp [dictSet, dictLookup]
    · simp [dictSet, dictLookup, h, ih]

/-- C1: for every store whose data mapping binds a flat key `k` (containing
no slash) to a value `v`, `get(k, d)` returns `v` for every default `d`,
including `None` and any other value (and the store is unchanged, with no
warning emitted). -/
theorem get_flat_present (p : Parameters) (k : String) (v d : Value)
    (hflat : hasChar k slash = false) (hv : dictLookup p.data k = some v) :
    p.get k d = (p, Except.ok v, []) := by
  cases hd : d.isNone with
  | true => simp [Parameters.get, hflat, finalAccess, hd, pyGetItem, hv]
  | false =>
    simp [Parameters.get, hflat, finalAccess, hd, pyContains, dictContains, hv,
      pyGetItem]

/-- Witness for C1: a store binding flat key `"k"` to `7`, read with a
non-`None` default. -/
theorem get_flat_present_witness :
    Parameters.get ⟨[("k", Value.int 7)]⟩ "k" (Value.str "z")
      = (⟨[("k", Value.int 7)]⟩, Except.ok (Value.int 7), []) :=
  get_flat_present ⟨[("k", Value.int 7)]⟩ "k" (Value.int 7) (Value.str "z") rfl rfl

/-- C2: for a flat key `k` absent from the top-level data mapping,
`get(k, d)` returns `d` whenever `d` is not the sentinel `None`, and
`get(k)` with default `None` raises `KeyError(k)`, which propagates to the
caller (the translation returns it as an uncaught error). -/
theorem get_flat_absent (p : Parameters) (k : String) (d : Value)
    (hflat : hasChar k slash = false) (habs : dictLookup p.data k = Option.none) :
    (d.isNone = false → p.get k d = (p, Except.ok d, [])) ∧
    p.get k Value.none = (p, Except.error (PErr.keyError k), []) := by
  constructor
  · intro hd
    simp [Parameters.get, hflat, finalAccess, hd, pyContains, dictContains, habs]
  · simp [Parameters.get, hflat, finalAccess, Value.isNone, pyGetItem, habs]

/-- Witness for C2: the empty store with key `"a"`, once with default `1`
and once with default `None`. -/
theorem get_flat_absent_witness :
    Parameters.get ⟨[]⟩ "a" (Value.int 1) = (⟨[]⟩, Except.ok (Value.int 1), []) ∧
    Parameters.get ⟨[]⟩ "a" Value.none
      = (⟨[]⟩, Except.error (PErr.keyError "a"), []) :=
  ⟨(get_flat_absent ⟨[]⟩ "a" (Value.int 1) rfl rfl).1 rfl,
   (get_flat_absent ⟨[]⟩ "a" (Value.int 1) rfl rfl).2⟩

theorem getLoop_absent_intermediate (p : Parameters) (ok : String) (d : Value) :
    ∀ (pre : List String) (data : Value) (lvl : List (String × Value))
      (s rest1 : String) (rest : List String) (k : String) (ks : List String),
      walk data pre = some (Value.dict lvl) → dictContains lvl s = false →
      k :: ks = pre ++ s :: rest1 :: rest →
      getLoop p ok d data k ks = (p, Except.ok d, [warnEvent ok d]) := by
  intro pre
  induction pre with
  | nil =>
    intro data lvl s rest1 rest k ks hw hc hsh
    simp only [walk, Option.some.injEq] at hw
    subst hw
    simp only [List.nil_append] at hsh
    cases hsh
    simp [getLoop, pyContains, hc]
  | cons q pre2 ih =>
    intro data lvl s rest1 rest k ks hw hc hsh
    simp only [List.cons_append] at hsh
    cases hsh
    cases data with
    | none => simp [walk] at hw
    | bool b => simp [walk] at hw
    | int n => simp [walk] at hw
    | str s2 => simp [walk] at hw
    | list vs => simp [walk] at hw
    | dict kvs =>
      cases hq : dictLookup kvs q with
      | none => simp [walk, hq] at hw
      | some child =>
        simp only [walk, hq] at hw
        obtain ⟨k2, ks2, hE⟩ : ∃ a l, pre2 ++ s :: rest1 :: rest = a :: l := by
          cases pre2 <;> exact ⟨_, _, rfl⟩
        rw [hE]
        simp only [getLoop, pyContains, dictContains, hq, Option.isSome_some,
          pyGetItem]
        exact ih child lvl s rest1 rest k2 ks2 hw hc hE.symm

/-- C3: for every hierarchical key whose traversal reaches a mapping level
from which the next intermediate segment `s` is absent, `get` returns the
supplied default immediately — for every default, including `None` — and
emits exactly one warning event, built from the original full key (the
failing segment `s` does not occur in the event constructor). -/
theorem get_absent_intermediate (p : Parameters) (key : String) (d : Value)
    (pre : List String) (s rest1 : String) (rest : List String)
    (lvl : List (String × Value))
    (hslash : hasChar key slash = true)
    (hsplit : pySplit key slash = pre ++ s :: rest1 :: rest)
    (hwalk : walk (Value.dict p.data) pre = some (Value.dict lvl))
    (habs : dictContains lvl s = false) :
    p.get key d = (p, Except.ok d, [warnEvent key d]) := by
  obtain ⟨k2, ks2, hE⟩ : ∃ a l, pre ++ s :: rest1 :: rest = a :: l := by
    cases pre <;> exact ⟨_, _, rfl⟩
  have hs2 : pySplit key slash = k2 :: ks2 := hsplit.trans hE
  simp only [Parameters.get, hslash, if_true, hs2]
  exact getLoop_absent_intermediate p key d pre (Value.dict p.data) lvl s rest1
    rest k2 ks2 hwalk habs hE.symm

/-- Witness for C3: store `{a: {}}`, key `"a/x/c"`, default `"D"`. -/
theorem get_absent_intermediate_witness :
    Parameters.get ⟨[("a", Value.dict [])]⟩ "a/x/c" (Value.str "D")
      = (⟨[("a", Value.dict [])]⟩, Except.ok (Value.str "D"),
         [warnEvent "a/x/c" (Value.str "D")]) :=
  get_absent_intermediate ⟨[("a", Value.dict [])]⟩ "a/x/c" (Value.str "D")
    ["a"] "x" "c" [] [] rfl rfl rfl rfl

theorem getLoop_fst (p : Parameters) (ok : String) (d : Value) :
    ∀ (ks : List String) (data : Value) (k : String),
      (getLoop p ok d data k ks).1 = p := by
  intro ks
  induction ks with
  | nil => intro data k; rfl
  | cons k2 ks2 ih =>
    intro data k
    cases hpc : pyContains data k with
    | error e => simp [getLoop, hpc]
    | ok b =>
      cases b with
      | false => simp [getLoop, hpc]
      | true =>
        cases hg : pyGetItem data k with
        | error e => simp [getLoop, hpc, hg]
        | ok d2 =>
          simp only [getLoop, hpc, hg]
          exact ih d2 k2

/-- C10: get is read-only — for every store, key and default, the store
component returned by the translated `get` (the state of `self` after the
call, threaded through every step) is exactly the input store, whether the
call returns a stored value, returns the default, or raises. -/
theorem get_preserves_store (p : Parameters) (key : String) (d : Value) :
    (p.get key d).1 = p := by
  simp only [Parameters.get]
  by_cases h : hasChar key slash = true
  · simp only [h, if_true]
    cases hsp : pySplit key slash with
    | nil => rfl
    | cons k ks =>
      simp only [hsp]
      exact getLoop_fst p key d ks (Value.dict p.data) k
  · simp [h]

theorem setLoop_absent_intermediate :
    ∀ (pre : List String) (data : Value) (lvl : List (String × Value))
      (s rest1 : String) (rest : List String) (k : String) (ks : List String)
      (v : Value),
      walk data pre = some (Value.dict lvl) → dictContains lvl s = false →
      k :: ks = pre ++ s :: rest1 :: rest →
      setLoop data k ks v = Except.error (PErr.keyError s) := by
  intro pre
  induction pre with
  | nil =>
    intro data lvl s rest1 rest k ks v hw hc hsh
    simp only [walk, Option.some.injEq] at hw
    subst hw
    simp only [List.nil_append] at hsh
    cases hsh
    have hn : dictLookup lvl s = Option.none := by
      cases hq : dictLookup lvl s with
      | none => rfl
      | some w => rw [dictContains, hq] at hc; simp at hc
    simp [setLoop, pyGetItem, hn]
  | cons q pre2 ih =>
    intro data lvl s rest1 rest k ks v hw hc hsh
    simp only [List.cons_append] at hsh
    cases hsh
    cases data with
    | none => simp [walk] at hw
    | bool b => simp [walk] at hw
    | int n => simp [walk] at hw
    | str s2 => simp [walk] at hw
    | list vs => simp [walk] at hw
    | dict kvs =>
      cases hq : dictLookup kvs q with
      | none => simp [walk, hq] at hw
      | some child =>
        simp only [walk, hq] at hw
        obtain ⟨k2, ks2, hE⟩ : ∃ a l, pre2 ++ s :: rest1 :: rest = a :: l := by
          cases pre2 <;> exact ⟨_, _, rfl⟩
        rw [hE]
        simp only [setLoop, pyGetItem, hq]
        rw [ih child lvl s rest1 rest k2 ks2 v hw hc hE.symm]

/-- C4 counterexample: the claim says `set` fails whenever any segment of
the key — intermediate or otherwise — is absent; but on the empty store,
where the single (terminal) segment `"a"` is certainly absent, `set`
succeeds and inserts the binding instead of raising. -/
theorem set_flat_absent_succeeds :
    Parameters.set ⟨[]⟩ "a" (Value.int 5) = Except.ok ⟨[("a", Value.int 5)]⟩ ∧
    ∀ e, Parameters.set ⟨[]⟩ "a" (Value.int 5) ≠ Except.error e := by
  refine ⟨rfl, ?_⟩
  intro e h
  rw [show Parameters.set ⟨[]⟩ "a" (Value.int 5)
      = Except.ok ⟨[("a", Value.int 5)]⟩ from rfl] at h
  exact Except.noConfusion h

/-- C4 (amended): whenever an intermediate segment of the key given to
`set` — a segment with at least one further segment after it — is absent
from the mapping reached at its level, `set` fails with `KeyError` on that
segment, propagated to the caller; an absent terminal segment does not
make `set` fail, since the final assignment inserts the binding. -/
theorem set_absent_intermediate (p : Parameters) (key : String) (v : Value)
    (pre : List String) (s rest1 : String) (rest : List String)
    (lvl : List (String × Value))
    (hslash : hasChar key slash = true)
    (hsplit : pySplit key slash = pre ++ s :: rest1 :: rest)
    (hwalk : walk (Value.dict p.data) pre = some (Value.dict lvl))
    (habs : dictContains lvl s = false) :
    p.set key v = Except.error (PErr.keyError s) := by
  obtain ⟨k2, ks2, hE⟩ : ∃ a l, pre ++ s :: rest1 :: rest = a :: l := by
    cases pre <;> exact ⟨_, _, rfl⟩
  have hs2 : pySplit key slash = k2 :: ks2 := hsplit.trans hE
  simp only [Parameters.set, hslash, if_true, hs2]
  rw [setLoop_absent_intermediate pre (Value.dict p.data) lvl s rest1 rest k2
    ks2 v hwalk habs hE.symm]

/-- Witness for the amended C4: the empty store with key `"a/b"`, whose
intermediate segment `"a"` is absent. -/
theorem set_absent_intermediate_witness :
    Parameters.set ⟨[]⟩ "a/b" (Value.int 1)
      = Except.error (PErr.keyError "a") :=
  set_absent_intermediate ⟨[]⟩ "a/b" (Value.int 1) [] "a" "b" [] [] rfl rfl
    rfl rfl

theorem setLoop_getLoop_round (ok : String) :
    ∀ (pre : List String) (data : Value) (lvl : List (String × Value))
      (last : String) (v : Value) (k : String) (ks : List String),
      walk data pre = some (Value.dict lvl) →
      k :: ks = pre ++ [last] →
      ∃ out, setLoop data k ks v = Except.ok out ∧
        ∀ p : Parameters,
          getLoop p ok Value.none (Value.dict out) k ks
            = (p, Except.ok v, []) := by
  intro pre
  induction pre with
  | nil =>
    intro data lvl last v k ks hw hsh
    simp only [walk, Option.some.injEq] at hw
    subst hw
    simp only [List.nil_append] at hsh
    cases hsh
    refine ⟨dictSet lvl last v, rfl, ?_⟩
    intro p
    simp [getLoop, finalAccess, Value.isNone, pyGetItem, dictLookup_dictSet_self]
  | cons q pre2 ih =>
    intro data lvl last v k ks hw hsh
    simp only [List.cons_append] at hsh
    cases hsh
    cases data with
    | none => simp [walk] at hw
    | bool b => simp [walk] at hw
    | int n => simp [walk] at hw
    | str s2 => simp [walk] at hw
    | list vs => simp [walk] at hw
    | dict kvs =>
      cases hq : dictLookup kvs q with
      | none => simp [walk, hq] at hw
      | some child =>
        simp only [walk, hq] at hw
        obtain ⟨k2, ks2, hE⟩ : ∃ a l, pre2 ++ [last] = a :: l := by
          cases pre2 <;> exact ⟨_, _, rfl⟩
        rw [hE]
        obtain ⟨out2, hset, hget⟩ := ih child lvl last v k2 ks2 hw hE.symm
        have h1 : dictLookup (dictSet kvs q (Value.dict out2)) q
            = some (Value.dict out2) := dictLookup_dictSet_self kvs q _
        refine ⟨dictSet kvs q (Value.dict out2), ?_, ?_⟩
        · simp [setLoop, pyGetItem, hq, hset, pySetItem]
        · intro p
          simp [getLoop, pyContains, dictContains, h1, pyGetItem, hget p]

/-- C5: for every hierarchical key all of whose intermediate segments
already exist and resolve to mappings, `set(key, v)` succeeds and a
following `get(key)` (default `None`) returns `v`, for every value `v`. -/
theorem set_get_roundtrip (p : Parameters) (key : String) (v : Value)
    (pre : List String) (last : String) (lvl : List (String × Value))
    (hslash : hasChar key slash = true)
    (hsplit : pySplit key slash = pre ++ [last])
    (hwalk : walk (Value.dict p.data) pre = some (Value.dict lvl)) :
    ∃ p2 : Parameters, p.set key v = Except.ok p2 ∧
      p2.get key Value.none = (p2, Except.ok v, []) := by
  obtain ⟨k2, ks2, hE⟩ : ∃ a l, pre ++ [last] = a :: l := by
    cases pre <;> exact ⟨_, _, rfl⟩
  have hs2 : pySplit key slash = k2 :: ks2 := hsplit.trans hE
  obtain ⟨out, hset, hget⟩ := setLoop_getLoop_round key pre (Value.dict p.data)
    lvl last v k2 ks2 hwalk hE.symm
  refine ⟨⟨out⟩, ?_, ?_⟩
  · simp only [Parameters.set, hslash, if_true, hs2, hset]
  · simp only [Parameters.get, hslash, if_true, hs2]
    exact hget ⟨out⟩

/-- Witness for C5: store `{a: {}}`, key `"a/b"`, value `7`. -/
theorem set_get_roundtrip_witness :
    ∃ p2 : Parameters,
      Parameters.set ⟨[("a", Value.dict [])]⟩ "a/b" (Value.int 7)
        = Except.ok p2 ∧
      p2.get "a/b" Value.none = (p2, Except.ok (Value.int 7), []) :=
  set_get_roundtrip ⟨[("a", Value.dict [])]⟩ "a/b" (Value.int 7) ["a"] "b" []
    rfl rfl rfl

/-- C6: for every key string `k` — including keys containing a slash — and
every value `v`, an indexed write `store[k] = v` followed by an indexed
read `store[k]` returns `v`: indexed access is a raw passthrough to the
top-level mapping and performs no path splitting. -/
theorem setItem_getItem_roundtrip (p : Parameters) (k : String) (v : Value) :
    (p.setItem k v).getItem k = Except.ok v := by
  simp [Parameters.setItem, Parameters.getItem, pyGetItem,
    dictLookup_dictSet_self]

theorem taskGoalRead_eq (p : Parameters) (k : String)
    (h : slotLenDefined p.data k = true) :
    taskGoalRead p k = Except.ok (taskGoalSlotSpec p.data k) := by
  cases hq : dictLookup p.data k with
  | none => simp [taskGoalRead, taskGoalSlotSpec, dictContains, hq]
  | some w =>
    cases hl : pyLen w with
    | error e => simp [slotLenDefined, hq, hl] at h
    | ok n =>
      cases n with
      | zero =>
        simp [taskGoalRead, taskGoalSlotSpec, dictContains, hq,
          Parameters.getItem, pyGetItem, hl]
      | succ m =>
        simp [taskGoalRead, taskGoalSlotSpec, dictContains, hq,
          Parameters.getItem, pyGetItem, hl]

/-- C7: `get_task_goals()` returns the pair
`(object_to_find, location_to_place)` in that fixed order, where each slot
is the stored value when its top-level key is present with a non-empty
sequence value, and the absent signal `None` both when the key is absent
and when its value is an empty sequence. -/
theorem get_task_goals_spec (p : Parameters)
    (h1 : slotLenDefined p.data "object_to_find" = true)
    (h2 : slotLenDefined p.data "location_to_place" = true) :
    p.get_task_goals
      = Except.ok (taskGoalSlotSpec p.data "object_to_find",
          taskGoalSlotSpec p.data "location_to_place") := by
  simp [Parameters.get_task_goals, taskGoalRead_eq p _ h1,
    taskGoalRead_eq p _ h2]

/-- Witness for C7: a store where `object_to_find` is the empty string
(normalised to `None`) and `location_to_place` is `"table"`. -/
theorem get_task_goals_spec_witness :
    slotLenDefined [("object_to_find", Value.str ""),
      ("location_to_place", Value.str "table")] "object_to_find" = true ∧
    Parameters.get_task_goals ⟨[("object_to_find", Value.str ""),
      ("location_to_place", Value.str "table")]⟩
      = Except.ok (Value.none, Value.str "table") :=
  ⟨rfl,
   (get_task_goals_spec ⟨[("object_to_find", Value.str ""),
      ("location_to_place", Value.str "table")]⟩ rfl rfl).trans rfl⟩

/-- C8: the `guarantee_instance_is_reachable` property performs a flat
lookup only: it returns the stored value for that top-level key when the
key is present, and `False` when the key is absent. -/
theorem guarantee_flat_lookup (p : Parameters) :
    p.guarantee_instance_is_reachable
      = (dictLookup p.data "guarantee_instance_is_reachable").getD
          (Value.bool false) := by
  cases hq : dictLookup p.data "guarantee_instance_is_reachable" <;>
    simp [Parameters.guarantee_instance_is_reachable, hq]

theorem strLoop_shift (rest : List (String × Value)) :
    ∀ (acc : String) (i : Nat),
      strLoop acc (i + 1) rest
        = String.intercalate.go acc "\n"
            (rest.map (fun kv => kv.1 ++ ": " ++ pyStr kv.2)) := by
  induction rest with
  | nil => intro acc i; rfl
  | cons e rest2 ih =>
    obtain ⟨k, v⟩ := e
    intro acc i
    simp only [strLoop, List.map_cons, String.intercalate.go]
    rw [if_pos (Nat.succ_pos i), ih]
    congr 1
    simp [String.append_assoc]

/-- C9: the textual rendering of a store produces one line per top-level
key in insertion order, each formatted as `key: value`, joined by a single
newline with no trailing newline; in particular a store with keys inserted
in order `x: 1, y: 2` renders as the two-line string. -/
theorem toStr_intercalate :
    (∀ p : Parameters,
      Parameters.toStr p
        = String.intercalate "\n"
            (p.data.map (fun kv => kv.1 ++ ": " ++ pyStr kv.2))) ∧
    Parameters.toStr ⟨[("x", Value.int 1), ("y", Value.int 2)]⟩
      = "x: 1\ny: 2" := by
  constructor
  · intro p
    obtain ⟨data⟩ := p
    cases data with
    | nil => rfl
    | cons e rest =>
      obtain ⟨k, v⟩ := e
      simp only [Parameters.toStr, strLoop, List.map_cons, String.intercalate]
      rw [if_neg (lt_irrefl 0), strLoop_shift]
      simp
  · rfl

end Stretch
